import Mathlib

/-!
Verification of the countdown terminal application (main.go of
aldernero/countdown) against its natural-language specification.

The development shallowly embeds the core of main.go:
the countdown formatter, the input validator and its two date formats,
the sorted-insert event store, JSON persistence, the seed event, and the
bubbletea update loop restricted to the discrete commands the spec names.
Go int64 arithmetic is modelled with Int (no overflow occurs in the
quantities involved); Go integer division truncates toward zero, which is
Int.tdiv. Terminal styling (lipgloss) only wraps text in color escapes and
is treated as the identity on the displayed text.
-/

/-- An event: display name and Unix time in seconds (main.go, type Event). -/
structure Event where
  name : String
  time : Int
deriving DecidableEq, Repr

/-- Models the lipgloss ErrStyle render: styling affects only terminal color
codes, not the text content, so on content it is the identity. -/
def ErrStyle (s : String) : String := s

/-- countdownParser from main.go (lines 420-448), as a function of the signed
second difference diff = target - now (the Go code computes
diff := int(time.Until(t).Seconds()) and then uses only diff). Go division
on int truncates toward zero, i.e. Int.tdiv. -/
def countdownParser (diff : Int) : String :=
  let years := Int.tdiv diff 31557600
  let days := Int.tdiv (diff - years * 31557600) 86400
  let hours := Int.tdiv (diff - years * 31557600 - days * 86400) 3600
  let minutes := Int.tdiv (diff - years * 31557600 - days * 86400 - hours * 3600) 60
  let seconds := diff - years * 31557600 - days * 86400 - hours * 3600 - minutes * 60
  let result := ""
  let result := if 0 < years then
    toString years ++ "y " ++ toString days ++ "d " ++ toString hours ++ "h " ++
      toString minutes ++ "m " ++ toString seconds ++ "s" else result
  let result := if years = 0 ∧ 0 < days then
    toString days ++ "d " ++ toString hours ++ "h " ++ toString minutes ++ "m " ++
      toString seconds ++ "s" else result
  let result := if years = 0 ∧ days = 0 ∧ 0 < hours then
    toString hours ++ "h " ++ toString minutes ++ "m " ++ toString seconds ++ "s" else result
  let result := if years = 0 ∧ days = 0 ∧ hours = 0 ∧ 0 < minutes then
    toString minutes ++ "m " ++ toString seconds ++ "s" else result
  let result := if years = 0 ∧ days = 0 ∧ hours = 0 ∧ minutes = 0 then
    toString seconds ++ "s" else result
  let result := if diff < 0 then ErrStyle "Expired" else result
  result

/-- Seconds per display unit letter (spec section 4.1). -/
def unitSecs (u : String) : Nat :=
  if u = "y" then 31557600
  else if u = "d" then 86400
  else if u = "h" then 3600
  else if u = "m" then 60
  else 1

/-- Modelled from the spec (section 4.1 display rule): the (count, unit)
components shown for a non-negative diff, decomposed largest unit first with
each unit computed from the remainder of the larger units; leading zero units
among years, days, hours, minutes are dropped and seconds is always shown. -/
def shownComps (diff : Int) : List (Nat × String) :=
  let n := diff.toNat
  let y := n / 31557600
  let r := n % 31557600
  let d := r / 86400
  let h := r % 86400 / 3600
  let m := r % 3600 / 60
  let s := r % 60
  ([(y, "y"), (d, "d"), (h, "h"), (m, "m")]).dropWhile (fun q => q.1 == 0) ++ [(s, "s")]

/-- Render components as the space-separated "<n><unit-letter>" string. -/
def renderComps (comps : List (Nat × String)) : String :=
  String.intercalate " " (comps.map (fun q => toString q.1 ++ q.2))

/-- Recombine displayed components back into seconds using the fixed unit
constants. -/
def recombine (comps : List (Nat × String)) : Nat :=
  (comps.map (fun q => q.1 * unitSecs q.2)).sum

/-- Modelled from the spec: the full display rule of section 4.1, including
the Expired marker for negative differences. -/
def specDisplay (diff : Int) : String :=
  if diff < 0 then "Expired" else renderComps (shownComps diff)

theorem tdiv_coe (a b : Nat) : Int.tdiv (a : Int) (b : Int) = ((a / b : Nat) : Int) := rfl

theorem toString_natCast (k : Nat) : toString ((k : Nat) : Int) = toString k := rfl

theorem countdownParser_eq_render (n : Nat) :
    countdownParser (n : Int) = renderComps (shownComps (n : Int)) := by
  have h1 : Int.tdiv (n : Int) (31557600 : Int) = ((n / 31557600 : Nat) : Int) := rfl
  have h2 : (n : Int) - ((n / 31557600 : Nat) : Int) * (31557600 : Int) =
      ((n % 31557600 : Nat) : Int) := by omega
  have h3 : Int.tdiv ((n % 31557600 : Nat) : Int) (86400 : Int) =
      ((n % 31557600 / 86400 : Nat) : Int) := rfl
  have h4 : ((n % 31557600 : Nat) : Int) - ((n % 31557600 / 86400 : Nat) : Int) * (86400 : Int) =
      ((n % 31557600 % 86400 : Nat) : Int) := by omega
  have h5 : Int.tdiv ((n % 31557600 % 86400 : Nat) : Int) (3600 : Int) =
      ((n % 31557600 % 86400 / 3600 : Nat) : Int) := rfl
  have h6 : ((n % 31557600 % 86400 : Nat) : Int) -
        ((n % 31557600 % 86400 / 3600 : Nat) : Int) * (3600 : Int) =
      ((n % 31557600 % 3600 : Nat) : Int) := by omega
  have h7 : Int.tdiv ((n % 31557600 % 3600 : Nat) : Int) (60 : Int) =
      ((n % 31557600 % 3600 / 60 : Nat) : Int) := rfl
  have h8 : ((n % 31557600 % 3600 : Nat) : Int) -
        ((n % 31557600 % 3600 / 60 : Nat) : Int) * (60 : Int) =
      ((n % 31557600 % 60 : Nat) : Int) := by omega
  have hne : ¬ ((n : Int) < 0) := by omega
  simp only [countdownParser]
  rw [h1, h2, h3, h4, h5, h6, h7, h8]
  simp only [Nat.cast_eq_zero, Nat.cast_pos, toString_natCast]
  simp only [shownComps, renderComps, Int.toNat_natCast]
  rw [if_neg hne]
  rcases Nat.eq_zero_or_pos (n / 31557600) with hy | hy
  · rcases Nat.eq_zero_or_pos (n % 31557600 / 86400) with hd | hd
    · rcases Nat.eq_zero_or_pos (n % 31557600 % 86400 / 3600) with hh | hh
      · rcases Nat.eq_zero_or_pos (n % 31557600 % 3600 / 60) with hm | hm
        · simp [hy, hd, hh, hm, List.dropWhile_cons, String.intercalate,
            String.intercalate.go]
        · simp [hy, hd, hh, Nat.pos_iff_ne_zero.mp hm, hm, List.dropWhile_cons,
            String.intercalate, String.intercalate.go, String.append_assoc]
      · simp [hy, hd, Nat.pos_iff_ne_zero.mp hh, hh, List.dropWhile_cons,
          String.intercalate, String.intercalate.go, String.append_assoc]
    · simp [hy, Nat.pos_iff_ne_zero.mp hd, hd, List.dropWhile_cons,
        String.intercalate, String.intercalate.go, String.append_assoc]
  · simp [Nat.pos_iff_ne_zero.mp hy, hy, List.dropWhile_cons,
      String.intercalate, String.intercalate.go, String.append_assoc]

theorem recombine_dropWhile_zero (l tail : List (Nat × String)) :
    recombine (l.dropWhile (fun q => q.1 == 0) ++ tail) = recombine (l ++ tail) := by
  induction l with
  | nil => rfl
  | cons a l ih =>
      rw [List.dropWhile_cons]
      by_cases ha : a.1 = 0
      · simp only [ha, beq_self_eq_true, if_pos]
        rw [ih]
        simp [recombine, ha]
      · simp only [beq_iff_eq, ha, if_neg, not_false_iff]

theorem recombine_shownComps (n : Nat) : recombine (shownComps (n : Int)) = n := by
  have uy : unitSecs "y" = 31557600 := rfl
  have ud : unitSecs "d" = 86400 := rfl
  have uh : unitSecs "h" = 3600 := rfl
  have um : unitSecs "m" = 60 := rfl
  have us : unitSecs "s" = 1 := rfl
  simp only [shownComps, Int.toNat_natCast]
  rw [recombine_dropWhile_zero]
  simp only [recombine, List.map_append, List.map_cons, List.map_nil, List.sum_append,
    List.sum_cons, List.sum_nil, uy, ud, uh, um, us]
  omega

/-- Claim C4: for every diff >= 0, recombining the numbers shown in the
Countdown Formatter output with the fixed unit constants (year 31557600 s,
day 86400 s, hour 3600 s, minute 60 s, second the remainder) recovers
exactly diff; the numbers shown are exactly the components of shownComps,
which countdownParser renders. -/
theorem countdown_roundtrip (diff : Int) (hd : 0 ≤ diff) :
    ((recombine (shownComps diff) : Nat) : Int) = diff ∧
    countdownParser diff = renderComps (shownComps diff) := by
  lift diff to ℕ using hd with n
  exact ⟨by rw [recombine_shownComps], countdownParser_eq_render n⟩

/-- Witness for C4 at diff = 99961003: 3y 61d 3h 56m 43s. -/
theorem countdown_roundtrip_witness :
    ((recombine (shownComps (99961003 : Int)) : Nat) : Int) = (99961003 : Int) ∧
    countdownParser (99961003 : Int) = renderComps (shownComps (99961003 : Int)) :=
  countdown_roundtrip 99961003 (by norm_num)

/-- Claim C6: for every diff >= 0 the formatter output lists exactly the units
from the largest non-zero unit down to seconds, space-separated in
"<n><unit-letter>" form, with only seconds shown when years, days, hours and
minutes are all zero (hence "0s" at diff = 0), and for diff < 0 the result is
the Expired marker: countdownParser agrees everywhere with the display rule
specDisplay transcribed from the spec. -/
theorem countdown_display_spec (diff : Int) : countdownParser diff = specDisplay diff := by
  rcases lt_or_le diff 0 with h | h
  · simp only [specDisplay, if_pos h]
    simp [countdownParser, ErrStyle, h]
  · lift diff to ℕ using h with n
    rw [countdownParser_eq_render]
    simp only [specDisplay]
    rw [if_neg (by omega)]

/-- Days since 1970-01-01 of a Gregorian civil date (the standard civil
calendar algorithm); models the calendar arithmetic of Go time.Date. The
era division must round toward negative infinity, i.e. Int.fdiv. -/
def daysFromCivil (y m d : Int) : Int :=
  let yAdj := if m ≤ 2 then y - 1 else y
  let era := Int.fdiv yAdj 400
  let yoe := yAdj - era * 400
  let mp := if 2 < m then m - 3 else m + 9
  let doy := Int.fdiv (153 * mp + 2) 5 + d - 1
  let doe := yoe * 365 + Int.fdiv yoe 4 - Int.fdiv yoe 100 + doy
  era * 146097 + doe - 719468

/-- Unix epoch second of a civil local datetime in a fixed-offset time zone,
off seconds east of UTC; models Go time.Date(y,mo,d,h,mi,s,0,loc).Unix(). -/
def civilEpoch (y mo d h mi s off : Int) : Int :=
  daysFromCivil y mo d * 86400 + h * 3600 + mi * 60 + s - off

/-- Go isLeap from the time package. -/
def isLeap (y : Nat) : Bool := y % 4 = 0 ∧ (y % 100 ≠ 0 ∨ y % 400 = 0)

/-- Go daysIn(m, year) for months 1..12. -/
def daysInMonth (y mo : Nat) : Nat :=
  if mo = 2 then (if isLeap y then 29 else 28)
  else if mo = 4 ∨ mo = 6 ∨ mo = 9 ∨ mo = 11 then 30 else 31

/-- Numeric value of a decimal digit character, none otherwise. -/
def digitVal (c : Char) : Option Nat :=
  if c.isDigit then some (c.toNat - 48) else none

/-- Two fixed decimal digits (Go getnum with fixed width 2). -/
def num2 (a b : Char) : Option Nat := do
  pure ((← digitVal a) * 10 + (← digitVal b))

/-- Four fixed decimal digits (the Go stdLongYear field). -/
def num4 (a b c d : Char) : Option Nat := do
  pure (((← digitVal a) * 10 + (← digitVal b)) * 100 + ((← digitVal c) * 10 + (← digitVal d)))

/-- The range checks Go Parse performs on the parsed fields (month 1..12,
day 1..daysIn, hour <= 23, minute and second <= 59) followed by
time.Date(...).Unix() for the fixed-offset local zone. -/
def mkEpoch (y mo d h mi s : Nat) (off : Int) : Option Int :=
  if 1 ≤ mo ∧ mo ≤ 12 ∧ 1 ≤ d ∧ d ≤ daysInMonth y mo ∧ h ≤ 23 ∧ mi ≤ 59 ∧ s ≤ 59 then
    some (civilEpoch (y : Int) (mo : Int) (d : Int) (h : Int) (mi : Int) (s : Int) off)
  else none

/-- Go time.ParseInLocation with layout "2006-01-02 15:04:05": nineteen
characters, two-digit zero-padded fields, whole string consumed. -/
def parseLong (value : String) (off : Int) : Option Int :=
  match value.data with
  | [y1, y2, y3, y4, '-', o1, o2, '-', a1, a2, ' ', h1, h2, ':', i1, i2, ':', e1, e2] => do
      mkEpoch (← num4 y1 y2 y3 y4) (← num2 o1 o2) (← num2 a1 a2)
        (← num2 h1 h2) (← num2 i1 i2) (← num2 e1 e2) off
  | _ => none

/-- Go time.ParseInLocation with layout "2006-01-02": ten characters, the
clock fields defaulting to 00:00:00. -/
def parseShort (value : String) (off : Int) : Option Int :=
  match value.data with
  | [y1, y2, y3, y4, '-', o1, o2, '-', a1, a2] => do
      mkEpoch (← num4 y1 y2 y3 y4) (← num2 o1 o2) (← num2 a1 a2) 0 0 0 off
  | _ => none

/-- Format selection of MainModel.validateInputs (main.go 567-570): the short
layout when len(t) < 19, the long layout otherwise. -/
def parseTimeInput (t : String) (off : Int) : Option Int :=
  if t.length < 19 then parseShort t off else parseLong t off

/-- The validation error taxonomy of the spec (section 7); the in-model
stand-ins for the Go error values produced at main.go 565, 573, 576. -/
inductive ValErr
  | emptyFields
  | invalidTimeFormat
  | eventInPast
deriving DecidableEq, Repr

/-- MainModel.validateInputs (main.go 560-580) as a pure function of the two
input buffer values, the current epoch second and the zone offset. -/
def validateInputs (name t : String) (now off : Int) : Except ValErr Event :=
  if name = "" ∧ t = "" then .error .emptyFields
  else
    match parseTimeInput t off with
    | none => .error .invalidTimeFormat
    | some ts => if ts < now then .error .eventInPast else .ok ⟨name, ts⟩

/-- Claim C7: validateInputs fails with emptyFields exactly when both raw
inputs are empty; and an empty name with a non-empty, validly parsed,
non-past time succeeds with an empty-named event. -/
theorem validate_empty_fields (name t : String) (now off : Int) :
    (validateInputs name t now off = .error .emptyFields ↔ name = "" ∧ t = "") ∧
    (∀ ts : Int, t ≠ "" → parseTimeInput t off = some ts → ¬ ts < now →
      validateInputs "" t now off = .ok ⟨"", ts⟩) := by
  constructor
  · by_cases hb : name = "" ∧ t = ""
    · simp [validateInputs, hb]
    · simp only [validateInputs, if_neg hb]
      cases hp : parseTimeInput t off with
      | none => simp [hb]
      | some ts =>
          by_cases hlt : ts < now
          · simp [hlt, hb]
          · simp [hlt, hb]
  · intro ts ht hp hlt
    have hb : ¬ ("" = "" ∧ t = "") := by simp [ht]
    simp [validateInputs, hb, hp, hlt, ht]

/-- Witness for C7: an empty name with the valid future date 2030-01-02
succeeds with an empty-named event (zone offset 0, now = epoch 0). -/
theorem validate_empty_fields_witness :
    validateInputs "" "2030-01-02" 0 0 = .ok ⟨"", 1893542400⟩ :=
  (validate_empty_fields "" "2030-01-02" 0 0).2 1893542400 (by decide) (by decide) (by decide)

/-- The collection order invariant: non-decreasing event time. -/
def EventsSorted (events : List Event) : Prop :=
  List.Pairwise (fun a b : Event => a.time ≤ b.time) events

instance (events : List Event) : Decidable (EventsSorted events) :=
  inferInstanceAs (Decidable (List.Pairwise _ events))

/-- The insertion index scan of MainModel.Update (main.go 332-338): a fold
over the existing items, counting those with time <= e.time. -/
def insertIndex (events : List Event) (e : Event) : Nat :=
  events.foldl (fun idx item => if item.time ≤ e.time then idx + 1 else idx) 0

/-- list.InsertItem(index, e) at the scanned index (main.go 339); the empty
branch at main.go 330-331 inserts at 0, which is the scan result there. -/
def insertEvent (events : List Event) (e : Event) : List Event :=
  events.take (insertIndex events e) ++ e :: events.drop (insertIndex events e)

theorem insertIndex_foldl_acc (e : Event) (events : List Event) (acc : Nat) :
    events.foldl (fun idx item => if item.time ≤ e.time then idx + 1 else idx) acc =
      acc + events.countP (fun x => decide (x.time ≤ e.time)) := by
  induction events generalizing acc with
  | nil => simp
  | cons a t ih =>
      rw [List.foldl_cons, ih, List.countP_cons]
      by_cases h : a.time ≤ e.time
      · simp [h]
        omega
      · simp [h]

theorem insertIndex_eq_countP (events : List Event) (e : Event) :
    insertIndex events e = events.countP (fun x => decide (x.time ≤ e.time)) := by
  rw [insertIndex, insertIndex_foldl_acc]
  omega

theorem mem_insertEvent (events : List Event) (e x : Event) :
    x ∈ insertEvent events e ↔ x = e ∨ x ∈ events := by
  unfold insertEvent
  constructor
  · intro hx
    rcases List.mem_append.mp hx with h | h
    · exact Or.inr (List.take_subset _ _ h)
    · rcases List.mem_cons.mp h with h | h
      · exact Or.inl h
      · exact Or.inr (List.drop_subset _ _ h)
  · intro hx
    rcases hx with rfl | hx
    · exact List.mem_append.mpr (Or.inr (List.mem_cons_self _ _))
    · conv at hx => rw [← List.take_append_drop (insertIndex events e) events]
      rcases List.mem_append.mp hx with h | h
      · exact List.mem_append.mpr (Or.inl h)
      · exact List.mem_append.mpr (Or.inr (List.mem_cons_of_mem _ h))

theorem insertEvent_sorted_parts (events : List Event) (e : Event) (h : EventsSorted events) :
    EventsSorted (insertEvent events e) ∧
    events.take (insertIndex events e) = events.filter (fun x => decide (x.time ≤ e.time)) ∧
    (∀ x ∈ events.drop (insertIndex events e), e.time < x.time) := by
  induction events with
  | nil =>
      refine ⟨?_, rfl, by simp⟩
      simp [insertEvent, insertIndex, EventsSorted]
  | cons a t ih =>
      rw [EventsSorted, List.pairwise_cons] at h
      obtain ⟨ha, ht⟩ := h
      obtain ⟨ihs, ihtake, ihdrop⟩ := ih ht
      by_cases hpa : a.time ≤ e.time
      · have hidx : insertIndex (a :: t) e = insertIndex t e + 1 := by
          rw [insertIndex_eq_countP, insertIndex_eq_countP, List.countP_cons]
          simp [hpa]
        have hstruct : insertEvent (a :: t) e = a :: insertEvent t e := by
          rw [insertEvent, insertEvent, hidx]
          simp
        refine ⟨?_, ?_, ?_⟩
        · rw [hstruct, EventsSorted, List.pairwise_cons]
          refine ⟨?_, ihs⟩
          intro x hx
          rcases (mem_insertEvent t e x).mp hx with rfl | hx
          · exact hpa
          · exact ha x hx
        · rw [hidx, List.take_succ_cons, List.filter_cons]
          simp [hpa, ihtake]
        · rw [hidx, List.drop_succ_cons]
          exact ihdrop
      · have hall : ∀ x ∈ a :: t, e.time < x.time := by
          intro x hx
          rcases List.mem_cons.mp hx with rfl | hx
          · omega
          · have := ha x hx
            omega
        have hidx : insertIndex (a :: t) e = 0 := by
          rw [insertIndex_eq_countP, List.countP_eq_zero]
          intro x hx
          simpa using not_le.mpr (hall x hx)
        refine ⟨?_, ?_, ?_⟩
        · rw [insertEvent, hidx]
          simp only [List.take_zero, List.drop_zero, List.nil_append]
          rw [EventsSorted, List.pairwise_cons]
          refine ⟨fun x hx => le_of_lt (hall x hx), ?_⟩
          exact List.pairwise_cons.mpr ⟨ha, ht⟩
        · have hf : List.filter (fun x => decide (x.time ≤ e.time)) (a :: t) = [] := by
            rw [List.filter_eq_nil_iff]
            intro x hx
            simpa using not_le.mpr (hall x hx)
          rw [hidx, List.take_zero, hf]
        · rw [hidx, List.drop_zero]
          exact hall

theorem insertEvent_foldl_sorted (news : List Event) :
    ∀ start : List Event, EventsSorted start → EventsSorted (news.foldl insertEvent start) := by
  induction news with
  | nil => intro start h; simpa using h
  | cons e rest ih =>
      intro start h
      rw [List.foldl_cons]
      exact ih _ (insertEvent_sorted_parts start e h).1

/-- Claim C5: the insertion index is the count of existing events with
time <= the new event time; inserting there keeps a sorted collection
sorted, places the new event after every existing entry with time <= its
time (equal-time entries included), before every later one, and therefore
any sequence of insertions starting from a sorted collection stays sorted. -/
theorem insert_preserves_sorted :
    (∀ (events : List Event) (e : Event),
      insertIndex events e = events.countP (fun x => decide (x.time ≤ e.time))) ∧
    (∀ (events : List Event) (e : Event), EventsSorted events →
      EventsSorted (insertEvent events e) ∧
      events.take (insertIndex events e) = events.filter (fun x => decide (x.time ≤ e.time)) ∧
      (∀ x ∈ events.drop (insertIndex events e), e.time < x.time)) ∧
    (∀ (news start : List Event), EventsSorted start →
      EventsSorted (news.foldl insertEvent start)) :=
  ⟨insertIndex_eq_countP, insertEvent_sorted_parts, fun news start h =>
    insertEvent_foldl_sorted news start h⟩

/-- Witness for C5 on a concrete sorted collection with an equal-time tie. -/
theorem insert_preserves_sorted_witness :
    EventsSorted (insertEvent ([⟨"a", 1⟩, ⟨"b", 2⟩] : List Event) ⟨"c", 2⟩) ∧
    List.take (insertIndex ([⟨"a", 1⟩, ⟨"b", 2⟩] : List Event) ⟨"c", 2⟩)
        ([⟨"a", 1⟩, ⟨"b", 2⟩] : List Event) =
      List.filter (fun x => decide (x.time ≤ (Event.mk "c" 2).time))
        ([⟨"a", 1⟩, ⟨"b", 2⟩] : List Event) ∧
    EventsSorted (List.foldl insertEvent [] ([⟨"c", 2⟩, ⟨"a", 1⟩, ⟨"b", 2⟩] : List Event)) :=
  ⟨(insert_preserves_sorted.2.1 ([⟨"a", 1⟩, ⟨"b", 2⟩] : List Event) ⟨"c", 2⟩ (by decide)).1,
   (insert_preserves_sorted.2.1 ([⟨"a", 1⟩, ⟨"b", 2⟩] : List Event) ⟨"c", 2⟩ (by decide)).2.1,
   insert_preserves_sorted.2.2 ([⟨"c", 2⟩, ⟨"a", 1⟩, ⟨"b", 2⟩] : List Event) [] (by decide)⟩

/-- JSON values as exchanged with encoding/json for this data model. -/
inductive Json
  | null
  | str (s : String)
  | int (n : Int)
  | arr (elems : List Json)
  | obj (fields : List (String × Json))

/-- json.Marshal of one Event (struct tags name and ts; main.go 187-190). -/
def encodeEvent (e : Event) : Json :=
  .obj [("name", .str e.name), ("ts", .int e.time)]

/-- json.Marshal of an event slice: an array of event objects. -/
def encodeEvents (events : List Event) : Json :=
  .arr (events.map encodeEvent)

/-- json.Unmarshal into Event: looks up the tagged fields, uses the zero
value when a field is absent, fails (none) when a present field has the
wrong type or the value is not an object. -/
def decodeEvent : Json → Option Event
  | .obj fields => do
      let nameJ := (fields.find? (fun f => f.1 == "name")).map Prod.snd
      let tsJ := (fields.find? (fun f => f.1 == "ts")).map Prod.snd
      let name ← match nameJ with
        | none => some ""
        | some (.str s) => some s
        | some _ => none
      let ts ← match tsJ with
        | none => some (0 : Int)
        | some (.int n) => some n
        | some _ => none
      pure ⟨name, ts⟩
  | _ => none

/-- json.Unmarshal into an event slice: element-wise decoding of an array;
JSON null unmarshals to the empty slice. -/
def decodeEvents : Json → Option (List Event)
  | .null => some []
  | .arr elems => elems.mapM decodeEvent
  | _ => none

theorem decodeEvent_encodeEvent (e : Event) : decodeEvent (encodeEvent e) = some e := rfl

theorem decodeEvents_encodeEvents (events : List Event) :
    decodeEvents (encodeEvents events) = some events := by
  induction events with
  | nil => rfl
  | cons e t ih =>
      simp only [encodeEvents, decodeEvents, List.map_cons, List.mapM_cons,
        decodeEvent_encodeEvent]
      simp only [encodeEvents, decodeEvents] at ih
      rw [ih]
      rfl

/-- A wall-clock local datetime at second granularity: the fields Go exposes
via Year(), Month(), ... on a time.Time in the local zone. -/
structure LocalTime where
  y : Int
  mo : Int
  d : Int
  h : Int
  mi : Int
  s : Int
deriving DecidableEq, Repr

/-- The Unix() instant of a local wall time, for a fixed-offset local zone. -/
def LocalTime.unix (t : LocalTime) (off : Int) : Int :=
  civilEpoch t.y t.mo t.d t.h t.mi t.s off

/-- nextGolangAnniversary (main.go 582-592), with time.Now() passed in as a
local wall time; now.Before(x) compares instants, which at second granularity
with an integral target is the strict comparison of Unix seconds. -/
def nextGolangAnniversary (now : LocalTime) (off : Int) : Event :=
  let nameStr := "Golang's Birthday"
  let thisYear : LocalTime := ⟨now.y, 11, 10, 0, 0, 0⟩
  let nextYear : LocalTime := ⟨now.y + 1, 11, 10, 0, 0, 0⟩
  if now.unix off < thisYear.unix off then ⟨nameStr, thisYear.unix off⟩
  else ⟨nameStr, nextYear.unix off⟩

/-- MainModel.saveEventsToFile (main.go 483-500): serializes the full
collection and overwrites the events file, whose content models the file
system state. -/
def saveEventsToFile (events : List Event) : Option Json :=
  some (encodeEvents events)

/-- readEventsFile (main.go 450-481) over the modelled file system: an absent
file is created, seeded with the single Golang birthday event and persisted;
a present file is decoded, failing on malformed content. Returns the loaded
events and the resulting file content. -/
def readEventsFile (fs : Option Json) (now : LocalTime) (off : Int) :
    Except String (List Event × Option Json) :=
  match fs with
  | none =>
      let events := [nextGolangAnniversary now off]
      .ok (events, some (encodeEvents events))
  | some content =>
      match decodeEvents content with
      | some events => .ok (events, some content)
      | none => .error "unmarshal"

/-- Claim C9: Save followed by Load reproduces an equal event sequence, order
preserved, for every non-empty collection. -/
theorem save_load_roundtrip (events : List Event) (now : LocalTime) (off : Int)
    (_hne : events ≠ []) :
    readEventsFile (saveEventsToFile events) now off =
      .ok (events, saveEventsToFile events) := by
  simp [readEventsFile, saveEventsToFile, decodeEvents_encodeEvents]

/-- Witness for C9 on a concrete two-event collection. -/
theorem save_load_roundtrip_witness :
    readEventsFile (saveEventsToFile [⟨"x", 5⟩, ⟨"y", 7⟩]) ⟨2024, 1, 1, 0, 0, 0⟩ 0 =
      .ok ([⟨"x", 5⟩, ⟨"y", 7⟩], saveEventsToFile [⟨"x", 5⟩, ⟨"y", 7⟩]) :=
  save_load_roundtrip [⟨"x", 5⟩, ⟨"y", 7⟩] ⟨2024, 1, 1, 0, 0, 0⟩ 0 (by simp)

/-- Claim C8: with no events file, loading seeds exactly one event named
Golang birthday, dated November 10, 00:00:00 local time, of the current year
when now is strictly before that moment and of the next year otherwise; in
particular, when now equals that moment exactly the seed rolls forward to
the next year. -/
theorem golang_seed (now : LocalTime) (off : Int) :
    (readEventsFile none now off =
      .ok ([nextGolangAnniversary now off],
        some (encodeEvents [nextGolangAnniversary now off]))) ∧
    (nextGolangAnniversary now off).name = "Golang's Birthday" ∧
    (now.unix off < (LocalTime.mk now.y 11 10 0 0 0).unix off →
      (nextGolangAnniversary now off).time = (LocalTime.mk now.y 11 10 0 0 0).unix off) ∧
    (¬ now.unix off < (LocalTime.mk now.y 11 10 0 0 0).unix off →
      (nextGolangAnniversary now off).time = (LocalTime.mk (now.y + 1) 11 10 0 0 0).unix off) ∧
    (now.unix off = (LocalTime.mk now.y 11 10 0 0 0).unix off →
      (nextGolangAnniversary now off).time = (LocalTime.mk (now.y + 1) 11 10 0 0 0).unix off) := by
  refine ⟨rfl, ?_, ?_, ?_, ?_⟩
  · by_cases h : now.unix off < (LocalTime.mk now.y 11 10 0 0 0).unix off <;>
      simp [nextGolangAnniversary, h]
  · intro h
    simp [nextGolangAnniversary, h]
  · intro h
    simp [nextGolangAnniversary, h]
  · intro h
    have h2 : ¬ now.unix off < (LocalTime.mk now.y 11 10 0 0 0).unix off := by omega
    simp [nextGolangAnniversary, h2]

/-- Witness for C8 at now exactly November 10, 2023, 00:00:00: the seed rolls
forward to November 10, 2024. -/
theorem golang_seed_witness :
    (nextGolangAnniversary ⟨2023, 11, 10, 0, 0, 0⟩ 0).time =
      (LocalTime.mk (2023 + 1) 11 10 0 0 0).unix 0 :=
  (golang_seed ⟨2023, 11, 10, 0, 0, 0⟩ 0).2.2.2.2 (by decide)

/-- The sessionState enum of main.go (lines 170-176). -/
inductive SessionState
  | showEvents
  | showInput
  | noEvents
deriving DecidableEq, Repr

/-- The discrete input events the spec names (section 4.4): add, remove,
quit, back or cancel, next and previous field, enter or confirm, a typed
character routed to the focused text input, and the periodic tick. -/
inductive Msg
  | keyAdd
  | keyRemove
  | keyQuit
  | keyBack
  | keyNext
  | keyPrev
  | keyEnter
  | keyChar (c : Char)
  | tick
deriving DecidableEq, Repr

/-- Observable side effects of one update step: a synchronous save of the
full collection (saveEventsToFile), or the quit command. -/
inductive Effect
  | save (events : List Event)
  | quit
deriving DecidableEq, Repr

/-- The MainModel state of main.go (lines 200-207): view state, focused
field index, the event collection with its selection cursor, the two text
input buffers, and the recorded validation error (none for the empty
status string). -/
structure MainModel where
  state : SessionState
  focus : Int
  events : List Event
  cursor : Nat
  nameInput : String
  timeInput : String
  inputStatus : Option ValErr
deriving DecidableEq, Repr

/-- bubbles list.RemoveItem: removes the item at the index, leaving the
slice unchanged when the index is out of range. -/
def removeAt (events : List Event) (i : Nat) : List Event :=
  if i < events.length then events.eraseIdx i else events

/-- The observable effect of MainModel.resetInputs (main.go 553-558). The
method has a value receiver: the two textinput Reset calls reach the shared
slice backing array and clear the buffers, but the assignments of 0 to
focus and of the empty string to inputStatus mutate only the receiver copy
and are lost. -/
def resetInputs (m : MainModel) : MainModel :=
  { m with nameInput := "", timeInput := "" }

/-- NewMainModel (main.go 209-255) on an already loaded collection: list
view by default, switched to the no-events view when the collection is
empty; focus on the first field, buffers and status empty, cursor at 0. -/
def initModel (events : List Event) : MainModel :=
  { state := if events.length = 0 then .noEvents else .showEvents
    focus := 0
    events := events
    cursor := 0
    nameInput := ""
    timeInput := ""
    inputStatus := none }

/-- The noEvents arm of MainModel.Update (main.go 265-272): only the add
command is recognized. -/
def stepNoEvents (m : MainModel) (msg : Msg) : MainModel × List Effect :=
  match msg with
  | .keyAdd => ({ m with state := .showInput }, [])
  | _ => (m, [])

/-- The showEvents arm of MainModel.Update (main.go 273-296): quit, add, and
remove; remove deletes the selected item, always saves, and switches to the
no-events view when the collection became empty. -/
def stepShowEvents (m : MainModel) (msg : Msg) : MainModel × List Effect :=
  match msg with
  | .keyQuit => (m, [.quit])
  | .keyAdd => ({ m with state := .showInput }, [])
  | .keyRemove =>
      let remaining := removeAt m.events m.cursor
      let m1 := { m with events := remaining }
      let m2 := if remaining.length = 0 then { m1 with state := .noEvents } else m1
      (m2, [.save remaining])
  | _ => (m, [])

/-- The showInput arm of MainModel.Update (main.go 297-357). Enter advances
from the text fields, cancels on the cancel button and submits on the submit
button; a failed validation clears the buffers, resets focus and records the
error inline (main.go 324-327, effective because those assignments run on
the Update receiver itself); a successful submit inserts at the scanned
index and saves only when the collection was already non-empty (main.go
330-343). Characters go to the focused text input up to its CharLimit (30
for the name, 19 for the time). -/
def stepShowInput (now off : Int) (m : MainModel) (msg : Msg) : MainModel × List Effect :=
  match msg with
  | .keyBack => ({ resetInputs m with state := .showEvents }, [])
  | .keyNext =>
      let f := m.focus + 1
      ({ m with focus := if 3 < f then 0 else f }, [])
  | .keyPrev =>
      let f := m.focus - 1
      ({ m with focus := if f < 0 then 3 else f }, [])
  | .keyEnter =>
      if m.focus = 0 ∨ m.focus = 1 then ({ m with focus := m.focus + 1 }, [])
      else if m.focus = 2 then ({ resetInputs m with state := .showEvents }, [])
      else if m.focus = 3 then
        match validateInputs m.nameInput m.timeInput now off with
        | .error err =>
            ({ m with
                nameInput := ""
                timeInput := ""
                focus := 0
                inputStatus := some err }, [])
        | .ok e =>
            if m.events.length = 0 then
              ({ resetInputs m with
                  events := insertEvent m.events e
                  state := .showEvents }, [])
            else
              ({ resetInputs m with
                  events := insertEvent m.events e
                  state := .showEvents },
               [.save (insertEvent m.events e)])
      else (m, [])
  | .keyChar c =>
      if m.focus = 0 ∧ m.nameInput.length < 30 then
        ({ m with nameInput := m.nameInput.push c }, [])
      else if m.focus = 1 ∧ m.timeInput.length < 19 then
        ({ m with timeInput := m.timeInput.push c }, [])
      else (m, [])
  | _ => (m, [])

/-- MainModel.Update (main.go 261-364) on the discrete commands, dispatching
on the current view state; now is the current epoch second, off the zone
offset. -/
def step (now off : Int) (m : MainModel) (msg : Msg) : MainModel × List Effect :=
  match m.state with
  | .noEvents => stepNoEvents m msg
  | .showEvents => stepShowEvents m msg
  | .showInput => stepShowInput now off m msg

/-- Application states reachable from some loaded collection under any
sequence of the discrete commands and ticks; the clock may advance
arbitrarily between steps while the zone offset stays fixed. -/
inductive Reachable (off : Int) : MainModel → Prop
  | init (events : List Event) : Reachable off (initModel events)
  | next (m : MainModel) (msg : Msg) (now : Int) :
      Reachable off m → Reachable off (step now off m msg).1

theorem step_preserves_noEvents_empty (now off : Int) (m : MainModel) (msg : Msg)
    (h : m.state = .noEvents → m.events = []) :
    (step now off m msg).1.state = .noEvents → (step now off m msg).1.events = [] := by
  cases msg <;> cases hs : m.state <;>
    simp_all [step, stepNoEvents, stepShowEvents, stepShowInput, removeAt, resetInputs] <;>
    (repeat' split) <;>
    simp_all [List.length_eq_zero]

/-- Counterexample to claim C1 as stated: pressing add from the no-events
view reaches a state whose collection is empty but whose view state is not
noEvents (it is the add form), so the stated iff fails on a reachable state. -/
theorem noEvents_iff_empty_counterexample :
    Reachable 0 ((step 0 0 (initModel []) Msg.keyAdd).1) ∧
    (step 0 0 (initModel []) Msg.keyAdd).1.events = [] ∧
    (step 0 0 (initModel []) Msg.keyAdd).1.state ≠ SessionState.noEvents :=
  ⟨Reachable.next (initModel []) Msg.keyAdd 0 (Reachable.init []), by decide, by decide⟩

/-- Claim C1 amended: on every reachable state, noEvents implies an empty
collection; the converse direction fails (see the counterexample: the add
form, and the list view after cancelling out of it, can hold an empty
collection). -/
theorem noEvents_implies_empty (off : Int) (m : MainModel) (h : Reachable off m) :
    m.state = SessionState.noEvents → m.events = [] := by
  induction h with
  | init events =>
      intro hs
      by_cases he : events.length = 0
      · exact List.length_eq_zero.mp he
      · simp [initModel, he] at hs
  | next m msg now _ ih => exact step_preserves_noEvents_empty now off m msg ih

/-- Witness for the amended C1 at the initial state of an empty collection. -/
theorem noEvents_implies_empty_witness : (initModel ([] : List Event)).events = [] :=
  noEvents_implies_empty 0 (initModel []) (Reachable.init []) (by decide)

/-- Counterexample to claim C2 as stated: submitting a valid event from the
add form over an empty collection performs the insert (the resulting
collection has one element) but emits no save effect (main.go 330-331 skips
saveEventsToFile exactly in the previously-empty branch). -/
theorem insert_save_counterexample :
    ((step 0 0 ⟨.showInput, 3, [], 0, "x", "2030-01-02", none⟩ Msg.keyEnter).1.events.length
        = 1) ∧
    (step 0 0 ⟨.showInput, 3, [], 0, "x", "2030-01-02", none⟩ Msg.keyEnter).2 = [] := by
  constructor
  · decide
  · decide

/-- Claim C2 amended: a successful submit-insert saves the full new
collection immediately when the collection was already non-empty before the
insert, and every remove saves the resulting collection immediately
regardless of its size. -/
theorem insert_remove_save_amended :
    (∀ (now off : Int) (m : MainModel) (e : Event),
      m.state = .showInput → m.focus = 3 →
      validateInputs m.nameInput m.timeInput now off = .ok e →
      m.events ≠ [] →
      (step now off m .keyEnter).2 = [.save (insertEvent m.events e)]) ∧
    (∀ (now off : Int) (m : MainModel),
      m.state = .showEvents →
      (step now off m .keyRemove).2 = [.save (removeAt m.events m.cursor)]) := by
  constructor
  · intro now off m e hs hf hv hne
    have hlen : ¬ (m.events.length = 0) := by
      simpa [List.length_eq_zero] using hne
    simp [step, hs, stepShowInput, hf, hv, hlen]
  · intro now off m hs
    simp [step, hs, stepShowEvents]

/-- Witness for the amended C2: a submit over a one-event collection saves
the two-event result; a remove over a one-event collection saves the empty
result. -/
theorem insert_remove_save_amended_witness :
    (step 0 0 ⟨.showInput, 3, [⟨"a", 0⟩], 0, "x", "2030-01-02", none⟩ Msg.keyEnter).2 =
      [.save (insertEvent [⟨"a", 0⟩] ⟨"x", 1893542400⟩)] ∧
    (step 0 0 ⟨.showEvents, 0, [⟨"a", 0⟩], 0, "", "", none⟩ Msg.keyRemove).2 =
      [.save (removeAt [⟨"a", 0⟩] 0)] :=
  ⟨insert_remove_save_amended.1 0 0 ⟨.showInput, 3, [⟨"a", 0⟩], 0, "x", "2030-01-02", none⟩
      ⟨"x", 1893542400⟩ rfl rfl rfl (by decide),
   insert_remove_save_amended.2 0 0 ⟨.showEvents, 0, [⟨"a", 0⟩], 0, "", "", none⟩ rfl⟩

/-- Claim C3, evaluated at the failing input: cancelling the add form (escape,
here with focus on the time field and an error message recorded from an
earlier failed submit) does switch to the list view and does clear both
buffers, but leaves the focused-field index and the recorded error message
unchanged, because the focus and status assignments in resetInputs run on a
value-receiver copy (main.go 553-558). -/
theorem cancel_keeps_focus_and_status :
    (step 0 0 ⟨.showInput, 1, [⟨"e", 9⟩], 0, "abc", "", some .emptyFields⟩ Msg.keyBack).1 =
      ⟨.showEvents, 1, [⟨"e", 9⟩], 0, "", "", some .emptyFields⟩ := by
  decide

/-- The m.events.SelectedItem().(Event) access of detailsString (main.go
389): bubbles SelectedItem yields the item at the selection index, or nil
when the list is empty or the index is out of range, and the unchecked type
assertion panics exactly on nil, modelled as none. -/
def detailsSelectedEvent (events : List Event) (index : Nat) : Option Event :=
  events[index]?

/-- Claim C10: with the selection index in range (as the list widget keeps it
on every non-empty list) or at its initial value 0, the selected-item access
of detailsString succeeds exactly when the collection is non-empty, so
rendering the ShowingEvents view is safe exactly when an event exists. -/
theorem details_safe_iff_nonempty (events : List Event) (index : Nat)
    (h : index < events.length ∨ index = 0) :
    ((detailsSelectedEvent events index).isSome = true ↔ events ≠ []) := by
  rcases h with h | rfl
  · simp only [detailsSelectedEvent, List.getElem?_eq_getElem h, Option.isSome_some, true_iff]
    intro he
    subst he
    simp at h
  · cases events with
    | nil => simp [detailsSelectedEvent]
    | cons e t => simp [detailsSelectedEvent]

/-- Witness for C10 on a one-event collection with the cursor at 0. -/
theorem details_safe_iff_nonempty_witness :
    ((detailsSelectedEvent [⟨"a", 1⟩] 0).isSome = true ↔ ([⟨"a", 1⟩] : List Event) ≠ []) :=
  details_safe_iff_nonempty [⟨"a", 1⟩] 0 (Or.inr rfl)
